import Mathlib

/-!
Verification of the `errtools` crate: a shallow embedding of
`src/lib.rs` and `src/deserialize.rs`, together with proofs of the
behavioural properties stated in the specification of the crate.
-/

set_option autoImplicit false

namespace Errtools

/-!
## The serde data model

Values exchanged between the `Serialize` implementations of `lib.rs`
and the `Deserialize` visitors of `deserialize.rs`: strings, options
(`serialize_some` / `serialize_none`), and structs, which a keyed
format renders as a field-name/value map (driving `Visitor::visit_map`)
and a positional format renders as the plain sequence of field values
(driving `Visitor::visit_seq`).
-/

inductive Value where
  | str (s : String) : Value
  | opt (v : Option Value) : Value
  | record (fields : List (String × Value)) : Value
  | seq (elems : List Value) : Value

/-- Which surface rendering a format gives to one `serialize_struct`
block: keyed formats (such as JSON) keep the field names, positional
formats (such as bincode) keep only the field values in order. -/
inductive Form where
  | keyed
  | positional
deriving Repr, DecidableEq

/-- Renders one `serialize_struct` block in the chosen form. -/
def renderStruct : Form → List (String × Value) → Value
  | .keyed, fields => .record fields
  | .positional, fields => .seq (fields.map Prod.snd)

/-!
## The serialization side (`src/lib.rs`)

A live error being serialized is a chain of nodes; each node renders a
one-line `Display` message and may carry a captured backtrace. A chain
is a head node together with the list of its successive `source()`
nodes.
-/

/-- One node of a live error chain: its rendered `Display` message
(`self.0.to_string()`) and its optional rendered backtrace
(`self.0.backtrace().map(ToString::to_string)`). -/
structure ErrNode where
  msg : String
  backtrace : Option String
deriving Repr, DecidableEq, Inhabited

/-- `impl Serialize for SerializeableError` (lib.rs lines 126-138): the
field list emitted for a type-erased `&dyn Error`, fields `msg`,
`backtrace`, `source`, the source serialized recursively in the same
type-erased form (`self.0.source().map(ErrTools::serialize)`). The
chain is the node `e` followed by its transitive sources `rest`. -/
def serializeErasedFields (form : Form) : ErrNode → List ErrNode → List (String × Value)
  | e, rest =>
    [("msg", .str e.msg),
     ("backtrace", .opt (e.backtrace.map .str)),
     ("source", .opt (match rest with
        | [] => none
        | s :: ss => some (renderStruct form (serializeErasedFields form s ss))))]

/-- `ErrTools::serialize` for a type-erased reference, rendered by the
format. -/
def serializeErased (form : Form) (e : ErrNode) (rest : List ErrNode) : Value :=
  renderStruct form (serializeErasedFields form e rest)

/-- `impl Serialize for SerializeableConcreteError<E>` (lib.rs lines
140-156): same as the erased form but preceded by the field `type`
holding `std::any::type_name::<E>()`; the source is serialized in the
type-erased form. -/
def serializeConcreteFields (form : Form) (typeName : String) (e : ErrNode)
    (rest : List ErrNode) : List (String × Value) :=
  ("type", .str typeName) :: serializeErasedFields form e rest

/-- `ErrTools::serialize` for a concrete `E: Error + Sized`, rendered by
the format. -/
def serializeConcrete (form : Form) (typeName : String) (e : ErrNode)
    (rest : List ErrNode) : Value :=
  renderStruct form (serializeConcreteFields form typeName e rest)

/-- The rendered messages of a live chain, head to root. -/
def chainMsgs (e : ErrNode) (rest : List ErrNode) : List String :=
  e.msg :: rest.map ErrNode.msg

/-!
## The deserialization side (`src/deserialize.rs`)
-/

/-- `const FIELDS` of deserialize.rs. -/
def FIELDS : List String := ["type_name", "msg", "source"]

/-- The `serde::de::Error` values produced while deserializing: the four
named conditions raised by deserialize.rs (`invalid_length`,
`unknown_field`, `duplicate_field`, `missing_field`) plus the type
mismatch a format raises when a primitive value has the wrong shape. -/
inductive DeError where
  | invalidLength (len : Nat) (expecting : String)
  | unknownField (field : String) (expected : List String)
  | duplicateField (field : String)
  | missingField (field : String)
  | invalidType (expecting : String)
deriving Repr, DecidableEq

/-- The field-identifier enum of deserialize.rs. -/
inductive Field where
  | typeName
  | msg
  | source
deriving Repr, DecidableEq

/-- `Field::as_str`. -/
def Field.as_str : Field → String
  | .typeName => "type_name"
  | .msg => "msg"
  | .source => "source"

/-- `impl Deserialize for Field` (`FieldVisitor::visit_str`, deserialize.rs
lines 64-74): the three field names are recognized, every other
identifier is an `unknown_field` error. -/
def deField (v : Value) : Except DeError Field :=
  match v with
  | .str s =>
      if s = "type_name" then .ok .typeName
      else if s = "msg" then .ok .msg
      else if s = "source" then .ok .source
      else .error (.unknownField s FIELDS)
  | _ => .error (.invalidType "identifier")

/-- Deserializing a `String` from the data model. -/
def deString (v : Value) : Except DeError String :=
  match v with
  | .str s => .ok s
  | _ => .error (.invalidType "a string")

/-- Deserializing an `Option<String>` from the data model. -/
def deOptString (v : Value) : Except DeError (Option String) :=
  match v with
  | .opt none => .ok none
  | .opt (some w) => do
      let s ← deString w
      .ok (some s)
  | _ => .error (.invalidType "option")

/-- The deserialization target `errtools::deserialize::SourceError`:
a message plus an optional boxed source. -/
inductive SourceError where
  | mk (msg : String) (source : Option SourceError) : SourceError

/-- The deserialization target `errtools::deserialize::Error`: optional
type name, message, optional source chain. -/
structure Error where
  type_name : Option String
  msg : String
  source : Option SourceError

/-- The `expecting` text of both visitors of deserialize.rs. -/
def expectingError : String := "struct errtools::deserialize::Error"

mutual

/-- `impl Deserialize for SourceError` (deserialize.rs lines 81-88):
`deserialize_struct("Error", &FIELDS[1..], SourceErrorVisitor)`; a keyed
format drives `visit_map`, a positional one `visit_seq`. -/
def deSourceError (v : Value) : Except DeError SourceError :=
  match v with
  | .record fields => deSourceErrorMap fields none none
  | .seq elems => deSourceErrorSeq elems
  | _ => .error (.invalidType expectingError)

/-- `SourceErrorVisitor::visit_seq` (deserialize.rs lines 190-202): the
first element is the message, the second the optional source; a missing
element raises `invalid_length` with the arguments written in the
source (1 for the message element, 2 for the source element). -/
def deSourceErrorSeq (elems : List Value) : Except DeError SourceError :=
  match elems with
  | [] => .error (.invalidLength 1 expectingError)
  | [v0] => do
      let _m ← deString v0
      .error (.invalidLength 2 expectingError)
  | v0 :: v1 :: _ => do
      let msg ← deString v0
      let source ← deOptSourceError v1
      .ok (.mk msg source)

/-- `SourceErrorVisitor::visit_map` (deserialize.rs lines 204-232): the
key loop with its two accumulators; `type_name` keys fall to the
wildcard arm and are rejected as unknown against `&FIELDS[1..]`. -/
def deSourceErrorMap (fields : List (String × Value)) (msg : Option String)
    (source : Option (Option SourceError)) : Except DeError SourceError :=
  match fields with
  | [] =>
      match msg with
      | none => .error (.missingField "msg")
      | some m =>
        match source with
        | none => .error (.missingField "source")
        | some s => .ok (.mk m s)
  | (k, v) :: rest => do
      let key ← deField (.str k)
      match key with
      | .msg =>
          if msg.isSome then .error (.duplicateField "msg")
          else do
            let m ← deString v
            deSourceErrorMap rest (some m) source
      | .source =>
          if source.isSome then .error (.duplicateField "source")
          else do
            let s ← deOptSourceError v
            deSourceErrorMap rest msg (some s)
      | key => .error (.unknownField key.as_str (FIELDS.drop 1))

/-- Deserializing an `Option<Box<SourceError>>` from the data model. -/
def deOptSourceError (v : Value) : Except DeError (Option SourceError) :=
  match v with
  | .opt none => .ok none
  | .opt (some w) => do
      let s ← deSourceError w
      .ok (some s)
  | _ => .error (.invalidType "option")

end

/-- `ErrorVisitor::visit_seq` (deserialize.rs lines 121-140): elements in
order `type_name` (an optional string), `msg`, `source`; a missing
element raises `invalid_length` with its position (0, 1 or 2). -/
def deErrorSeq (elems : List Value) : Except DeError Error :=
  match elems with
  | [] => .error (.invalidLength 0 expectingError)
  | [v0] => do
      let _t ← deOptString v0
      .error (.invalidLength 1 expectingError)
  | [v0, v1] => do
      let _t ← deOptString v0
      let _m ← deString v1
      .error (.invalidLength 2 expectingError)
  | v0 :: v1 :: v2 :: _ => do
      let type_name ← deOptString v0
      let msg ← deString v1
      let source ← deOptSourceError v2
      .ok ⟨type_name, msg, source⟩

/-- `ErrorVisitor::visit_map` (deserialize.rs lines 142-180): the key
loop with its three accumulators; `type_name` stays optional after the
loop, `msg` and `source` are required. -/
def deErrorMap (fields : List (String × Value)) (type_name : Option String)
    (msg : Option String) (source : Option (Option SourceError)) : Except DeError Error :=
  match fields with
  | [] =>
      match msg with
      | none => .error (.missingField "msg")
      | some m =>
        match source with
        | none => .error (.missingField "source")
        | some s => .ok ⟨type_name, m, s⟩
  | (k, v) :: rest => do
      let key ← deField (.str k)
      match key with
      | .typeName =>
          if type_name.isSome then .error (.duplicateField "type_name")
          else do
            let t ← deString v
            deErrorMap rest (some t) msg source
      | .msg =>
          if msg.isSome then .error (.duplicateField "msg")
          else do
            let m ← deString v
            deErrorMap rest type_name (some m) source
      | .source =>
          if source.isSome then .error (.duplicateField "source")
          else do
            let s ← deOptSourceError v
            deErrorMap rest type_name msg (some s)

/-- `impl Deserialize for Error` (deserialize.rs lines 41-48):
`deserialize_struct("Error", FIELDS, ErrorVisitor)`. -/
def deError (v : Value) : Except DeError Error :=
  match v with
  | .record fields => deErrorMap fields none none none
  | .seq elems => deErrorSeq elems
  | _ => .error (.invalidType expectingError)

/-- The rendered messages of a deserialized source chain, outermost
first (the `Display` impl of `SourceError` prints its `msg`). -/
def SourceError.msgs : SourceError → List String
  | .mk m none => [m]
  | .mk m (some s) => m :: s.msgs

/-- The rendered messages of a deserialized error, head to root (the
`Display` impl of `Error` prints its `msg`, then the report walks the
sources). -/
def Error.msgs (e : Error) : List String :=
  e.msg :: (match e.source with
    | none => []
    | some s => s.msgs)

/-!
## Chain traversal and downcast (`src/lib.rs`)

A type-erased `&dyn Error` node is modelled by the `TypeId` of its
concrete type together with an identifier standing for the reference
itself; `downcast_ref::<T>()` succeeds exactly when the `TypeId` of the
node equals that of `T`. A chain is the trajectory of the loop variable
`cur_error`: the receiver first, then `source()`, `source().source()`,
and so on.
-/

/-- A type-erased chain node. -/
structure DynNode where
  tyId : Nat
  refId : Nat
deriving Repr, DecidableEq, Inhabited

/-- `ErrTools::downcast_refchain` from the blanket impl for a concrete
`E: Error + Sized` with static lifetime (lib.rs lines 62-74): test the current
node, return it on a match, otherwise advance to the source. -/
def downcast_refchain_concrete (t : Nat) : List DynNode → Option DynNode
  | [] => none
  | e :: rest => if e.tyId = t then some e else downcast_refchain_concrete t rest

/-- `ErrTools::downcast_refchain` from the impl for a static `dyn Error`
(lib.rs lines 84-96). -/
def downcast_refchain_dyn (t : Nat) : List DynNode → Option DynNode
  | [] => none
  | e :: rest => if e.tyId = t then some e else downcast_refchain_dyn t rest

/-- `ErrTools::downcast_refchain` from the impl for
`dyn Error + Send + Sync` with static lifetime (lib.rs lines 106-118). -/
def downcast_refchain_dyn_send_sync (t : Nat) : List DynNode → Option DynNode
  | [] => none
  | e :: rest => if e.tyId = t then some e else downcast_refchain_dyn_send_sync t rest

/-- The traversal loop instrumented with the number of `downcast_ref`
type checks it performs: one per loop iteration. -/
def downcast_refchain_steps (t : Nat) : List DynNode → Option DynNode × Nat
  | [] => (none, 0)
  | e :: rest =>
      if e.tyId = t then (some e, 1)
      else
        let (r, k) := downcast_refchain_steps t rest
        (r, k + 1)

/-!
## The wrap protocol (`src/lib.rs`)

`Result<T, E>` is `Except E T`; the `E2: From<(E, String)>` bound is an
explicit function `efrom`, and the `D: Display` bound an explicit
function `render` (what `format!("{}", msg)` produces). The `FnOnce`
closure of `wrap_err_with` is threaded through an explicit state so
that the number of its invocations is observable.
-/

/-- `WrapErr::wrap_err` (lib.rs lines 34-40):
`self.map_err(|source| E2::from((source, format!("{}", msg))))`. -/
def wrap_err {T E E2 D : Type} (efrom : E × String → E2) (render : D → String)
    (self : Except E T) (msg : D) : Except E2 T :=
  Except.mapError (fun source => efrom (source, render msg)) self

/-- `WrapErr::wrap_err_with` (lib.rs lines 42-49):
`self.map_err(|source| E2::from((source, format!("{}", msg()))))`; the
closure `msg` is a state transformer invoked exactly where the source
invokes it. -/
def wrap_err_with {T E E2 D σ : Type} (efrom : E × String → E2) (render : D → String)
    (self : Except E T) (msg : σ → D × σ) (s : σ) : Except E2 T × σ :=
  match self with
  | .ok v => (.ok v, s)
  | .error source =>
      let (d, s2) := msg s
      (.error (efrom (source, render d)), s2)

/-- `PublicEnumError` from `examples/wrap_err.rs` (lines 10-17): the
sample `E2` target defined by the repository, one variant holding the
boxed original error as `source` and the context text as `msg`; its
`Display` prints `msg`. -/
structure PublicEnumError (E : Type) where
  source : E
  msg : String
deriving Repr, DecidableEq

/-- The `impl From<(E, String)> for PublicEnumError` of
`examples/wrap_err.rs` (lines 19-27). -/
def PublicEnumError.ofPair {E : Type} : E × String → PublicEnumError E
  | (source, msg) => ⟨source, msg⟩

/-!
## Logical records and their two surface encodings

For the refinement claim about the two surface encodings, a logical
record is modelled from the words of the specification: an optional
type name, a message, and the messages of the nested source nodes,
outermost first. Its keyed encoding carries the field names
`type_name`, `msg`, `source` (the optional `type_name` present exactly
when the record carries one); its positional encoding carries the
values in the order `type_name, msg, source` at top level and
`msg, source` for nested nodes.
-/

/-- A logical error record, following the specification. -/
structure LogicalRecord where
  type_name : Option String
  msg : String
  sources : List String

/-- Keyed encoding of a nested source chain. -/
def encodeSourceKeyed : List String → Option Value
  | [] => none
  | m :: ms => some (.record [("msg", .str m), ("source", .opt (encodeSourceKeyed ms))])

/-- Positional encoding of a nested source chain. -/
def encodeSourcePositional : List String → Option Value
  | [] => none
  | m :: ms => some (.seq [.str m, .opt (encodeSourcePositional ms)])

/-- Keyed encoding of a logical record. -/
def LogicalRecord.encodeKeyed (r : LogicalRecord) : Value :=
  .record ((match r.type_name with
      | some t => [("type_name", Value.str t)]
      | none => []) ++
    [("msg", .str r.msg), ("source", .opt (encodeSourceKeyed r.sources))])

/-- Positional encoding of a logical record. -/
def LogicalRecord.encodePositional (r : LogicalRecord) : Value :=
  .seq [.opt (r.type_name.map .str), .str r.msg, .opt (encodeSourcePositional r.sources)]

/-- The deserialized source chain a logical record denotes. -/
def decodeSources : List String → Option SourceError
  | [] => none
  | m :: ms => some (.mk m (decodeSources ms))

/-- The deserialized error a logical record denotes. -/
def LogicalRecord.toError (r : LogicalRecord) : Error :=
  ⟨r.type_name, r.msg, decodeSources r.sources⟩

/-!
## Evaluation equations

One-step equations for the deserializer, used throughout the proofs:
the mutual functions are compiled by well-founded recursion, so their
defining equations are restated here as rewrite rules.
-/

@[simp] theorem except_bind_ok {ε α β : Type} (a : α) (f : α → Except ε β) :
    Bind.bind (Except.ok a) f = f a := rfl

@[simp] theorem except_bind_error {ε α β : Type} (e : ε) (f : α → Except ε β) :
    Bind.bind (Except.error e : Except ε α) f = (Except.error e : Except ε β) := rfl

@[simp] theorem deSourceError_record (fields : List (String × Value)) :
    deSourceError (.record fields) = deSourceErrorMap fields none none := by
  rw [deSourceError.eq_def]

@[simp] theorem deSourceError_seq (elems : List Value) :
    deSourceError (.seq elems) = deSourceErrorSeq elems := by
  rw [deSourceError.eq_def]

@[simp] theorem deSourceError_str (s : String) :
    deSourceError (.str s) = .error (.invalidType expectingError) := by
  rw [deSourceError.eq_def]

@[simp] theorem deSourceError_opt (o : Option Value) :
    deSourceError (.opt o) = .error (.invalidType expectingError) := by
  rw [deSourceError.eq_def]

@[simp] theorem deSourceErrorSeq_nil :
    deSourceErrorSeq [] = .error (.invalidLength 1 expectingError) := by
  rw [deSourceErrorSeq.eq_def]

@[simp] theorem deSourceErrorSeq_one (v0 : Value) :
    deSourceErrorSeq [v0] =
      Bind.bind (deString v0) (fun _ => .error (.invalidLength 2 expectingError)) := by
  rw [deSourceErrorSeq.eq_def]

@[simp] theorem deSourceErrorSeq_cons (v0 v1 : Value) (rest : List Value) :
    deSourceErrorSeq (v0 :: v1 :: rest) =
      Bind.bind (deString v0) (fun msg =>
        Bind.bind (deOptSourceError v1) (fun source =>
          .ok (.mk msg source))) := by
  rw [deSourceErrorSeq.eq_def]

@[simp] theorem deSourceErrorMap_nil (msg : Option String) (source : Option (Option SourceError)) :
    deSourceErrorMap [] msg source =
      match msg with
      | none => .error (.missingField "msg")
      | some m =>
        match source with
        | none => .error (.missingField "source")
        | some s => .ok (.mk m s) := by
  rw [deSourceErrorMap.eq_def]

@[simp] theorem deSourceErrorMap_cons (k : String) (v : Value) (rest : List (String × Value))
    (msg : Option String) (source : Option (Option SourceError)) :
    deSourceErrorMap ((k, v) :: rest) msg source =
      Bind.bind (deField (.str k)) (fun key =>
        match key with
        | .msg =>
            if msg.isSome then .error (.duplicateField "msg")
            else Bind.bind (deString v) (fun m => deSourceErrorMap rest (some m) source)
        | .source =>
            if source.isSome then .error (.duplicateField "source")
            else Bind.bind (deOptSourceError v) (fun s => deSourceErrorMap rest msg (some s))
        | _ => .error (.unknownField "type_name" (FIELDS.drop 1))) := by
  rw [deSourceErrorMap.eq_4]
  rcases hk : deField (.str k) with e | key
  · simp [hk]
  · simp only [hk, except_bind_ok]
    cases key <;> rfl

@[simp] theorem deOptSourceError_none :
    deOptSourceError (.opt none) = .ok none := by
  rw [deOptSourceError.eq_def]

@[simp] theorem deOptSourceError_some (w : Value) :
    deOptSourceError (.opt (some w)) =
      Bind.bind (deSourceError w) (fun s => .ok (some s)) := by
  rw [deOptSourceError.eq_def]

@[simp] theorem deOptSourceError_str (s : String) :
    deOptSourceError (.str s) = .error (.invalidType "option") := by
  rw [deOptSourceError.eq_def]

@[simp] theorem deOptSourceError_record (fields : List (String × Value)) :
    deOptSourceError (.record fields) = .error (.invalidType "option") := by
  rw [deOptSourceError.eq_def]

@[simp] theorem deOptSourceError_seq (elems : List Value) :
    deOptSourceError (.seq elems) = .error (.invalidType "option") := by
  rw [deOptSourceError.eq_def]

@[simp] theorem deError_record (fields : List (String × Value)) :
    deError (.record fields) = deErrorMap fields none none none := rfl

@[simp] theorem deError_seq (elems : List Value) :
    deError (.seq elems) = deErrorSeq elems := rfl

@[simp] theorem deErrorSeq_nil :
    deErrorSeq [] = .error (.invalidLength 0 expectingError) := rfl

@[simp] theorem deErrorSeq_one (v0 : Value) :
    deErrorSeq [v0] =
      Bind.bind (deOptString v0) (fun _ => .error (.invalidLength 1 expectingError)) := rfl

@[simp] theorem deErrorSeq_two (v0 v1 : Value) :
    deErrorSeq [v0, v1] =
      Bind.bind (deOptString v0) (fun _ =>
        Bind.bind (deString v1) (fun _ => .error (.invalidLength 2 expectingError))) := rfl

@[simp] theorem deErrorSeq_cons (v0 v1 v2 : Value) (rest : List Value) :
    deErrorSeq (v0 :: v1 :: v2 :: rest) =
      Bind.bind (deOptString v0) (fun type_name =>
        Bind.bind (deString v1) (fun msg =>
          Bind.bind (deOptSourceError v2) (fun source =>
            .ok ⟨type_name, msg, source⟩))) := rfl

@[simp] theorem deErrorMap_nil (type_name msg : Option String)
    (source : Option (Option SourceError)) :
    deErrorMap [] type_name msg source =
      match msg with
      | none => .error (.missingField "msg")
      | some m =>
        match source with
        | none => .error (.missingField "source")
        | some s => .ok ⟨type_name, m, s⟩ := rfl

@[simp] theorem deErrorMap_cons (k : String) (v : Value) (rest : List (String × Value))
    (type_name msg : Option String) (source : Option (Option SourceError)) :
    deErrorMap ((k, v) :: rest) type_name msg source =
      Bind.bind (deField (.str k)) (fun key =>
        match key with
        | .typeName =>
            if type_name.isSome then .error (.duplicateField "type_name")
            else Bind.bind (deString v) (fun t => deErrorMap rest (some t) msg source)
        | .msg =>
            if msg.isSome then .error (.duplicateField "msg")
            else Bind.bind (deString v) (fun m => deErrorMap rest type_name (some m) source)
        | .source =>
            if source.isSome then .error (.duplicateField "source")
            else Bind.bind (deOptSourceError v) (fun s =>
              deErrorMap rest type_name msg (some s))) := rfl

@[simp] theorem except_isOk_ok {ε α : Type} (a : α) :
    (Except.ok a : Except ε α).isOk = true := rfl

@[simp] theorem except_isOk_error {ε α : Type} (e : ε) :
    (Except.error e : Except ε α).isOk = false := rfl

/-!
## Facts about the field-identifier parser
-/

theorem deField_unknown (k : String) (h : k ∉ FIELDS) :
    deField (.str k) = .error (.unknownField k FIELDS) := by
  simp only [FIELDS, List.mem_cons, List.mem_singleton, not_or] at h
  simp [deField, h.1, h.2.1, h.2.2]

theorem deField_ok_eq (k : String) (key : Field) (h : deField (.str k) = .ok key) :
    k = Field.as_str key := by
  simp only [deField] at h
  split_ifs at h with h1 h2 h3
  · obtain rfl := Except.ok.inj h
    exact h1
  · obtain rfl := Except.ok.inj h
    exact h2
  · obtain rfl := Except.ok.inj h
    exact h3

theorem deField_mem (k : String) (key : Field) (h : deField (.str k) = .ok key) :
    k ∈ FIELDS := by
  rw [deField_ok_eq k key h]
  cases key <;> simp [Field.as_str, FIELDS]

/-!
## The keyed validation rules, top-level node
-/

/-- A record containing a field with an unknown name never deserializes
successfully at top level. -/
theorem deErrorMap_unknown (fields : List (String × Value)) (tn m : Option String)
    (s : Option (Option SourceError)) (k : String) (v : Value)
    (hmem : (k, v) ∈ fields) (hk : k ∉ FIELDS) :
    (deErrorMap fields tn m s).isOk = false := by
  induction fields generalizing tn m s with
  | nil => cases hmem
  | cons p rest ih =>
      obtain ⟨k0, v0⟩ := p
      rw [deErrorMap_cons]
      rcases hf : deField (.str k0) with e | key
      · simp
      · have hmem2 : (k, v) ∈ rest := by
          rcases List.mem_cons.mp hmem with heq | h2
          · injection heq with h1 _
            subst h1
            exact absurd (deField_mem _ _ hf) hk
          · exact h2
        simp only [except_bind_ok]
        cases key with
        | typeName =>
            by_cases htn : tn.isSome
            · simp [htn]
            · simp only [htn, if_false]
              rcases hv : deString v0 with e2 | t0
              · simp
              · simp only [except_bind_ok]
                exact ih (some t0) m s hmem2
        | msg =>
            by_cases hm : m.isSome
            · simp [hm]
            · simp only [hm, if_false]
              rcases hv : deString v0 with e2 | m0
              · simp
              · simp only [except_bind_ok]
                exact ih tn (some m0) s hmem2
        | source =>
            by_cases hs : s.isSome
            · simp [hs]
            · simp only [hs, if_false]
              rcases hv : deOptSourceError v0 with e2 | s0
              · simp
              · simp only [except_bind_ok]
                exact ih tn m (some s0) hmem2

theorem mem_map_fst_cons {k0 k : String} {v0 : Value} {rest : List (String × Value)}
    (h : k ∈ (((k0, v0) :: rest).map Prod.fst)) (hne : k ≠ k0) :
    k ∈ rest.map Prod.fst := by
  simp only [List.map_cons, List.mem_cons] at h
  exact h.resolve_left hne

/-- A record holding a field whose accumulator is already filled never
deserializes successfully at top level. -/
theorem deErrorMap_dup (fields : List (String × Value)) (tn m : Option String)
    (s : Option (Option SourceError))
    (h : ("type_name" ∈ fields.map Prod.fst ∧ tn.isSome = true) ∨
         ("msg" ∈ fields.map Prod.fst ∧ m.isSome = true) ∨
         ("source" ∈ fields.map Prod.fst ∧ s.isSome = true)) :
    (deErrorMap fields tn m s).isOk = false := by
  induction fields generalizing tn m s with
  | nil => simp at h
  | cons p rest ih =>
      obtain ⟨k0, v0⟩ := p
      rw [deErrorMap_cons]
      rcases hf : deField (.str k0) with e | key
      · simp
      · simp only [except_bind_ok]
        cases key with
        | typeName =>
            have hk0 : k0 = "type_name" := deField_ok_eq _ _ hf
            subst hk0
            by_cases htn : tn.isSome
            · simp [htn]
            · simp only [htn, if_false]
              rcases hv : deString v0 with e2 | t0
              · simp
              · simp only [except_bind_ok]
                apply ih (some t0) m s
                rcases h with ⟨_, h2⟩ | ⟨h1, h2⟩ | ⟨h1, h2⟩
                · exact absurd h2 htn
                · exact Or.inr (Or.inl ⟨mem_map_fst_cons h1 (by decide), h2⟩)
                · exact Or.inr (Or.inr ⟨mem_map_fst_cons h1 (by decide), h2⟩)
        | msg =>
            have hk0 : k0 = "msg" := deField_ok_eq _ _ hf
            subst hk0
            by_cases hm : m.isSome
            · simp [hm]
            · simp only [hm, if_false]
              rcases hv : deString v0 with e2 | m0
              · simp
              · simp only [except_bind_ok]
                apply ih tn (some m0) s
                rcases h with ⟨h1, h2⟩ | ⟨_, h2⟩ | ⟨h1, h2⟩
                · exact Or.inl ⟨mem_map_fst_cons h1 (by decide), h2⟩
                · exact absurd h2 hm
                · exact Or.inr (Or.inr ⟨mem_map_fst_cons h1 (by decide), h2⟩)
        | source =>
            have hk0 : k0 = "source" := deField_ok_eq _ _ hf
            subst hk0
            by_cases hs : s.isSome
            · simp [hs]
            · simp only [hs, if_false]
              rcases hv : deOptSourceError v0 with e2 | s0
              · simp
              · simp only [except_bind_ok]
                apply ih tn m (some s0)
                rcases h with ⟨h1, h2⟩ | ⟨h1, h2⟩ | ⟨_, h2⟩
                · exact Or.inl ⟨mem_map_fst_cons h1 (by decide), h2⟩
                · exact Or.inr (Or.inl ⟨mem_map_fst_cons h1 (by decide), h2⟩)
                · exact absurd h2 hs

/-- A record with a repeated field name never deserializes successfully
at top level. -/
theorem deErrorMap_nodup (fields : List (String × Value)) (tn m : Option String)
    (s : Option (Option SourceError)) (h : ¬ (fields.map Prod.fst).Nodup) :
    (deErrorMap fields tn m s).isOk = false := by
  induction fields generalizing tn m s with
  | nil => simp at h
  | cons p rest ih =>
      obtain ⟨k0, v0⟩ := p
      rw [deErrorMap_cons]
      rcases hf : deField (.str k0) with e | key
      · simp
      · simp only [except_bind_ok]
        have hsplit : k0 ∈ rest.map Prod.fst ∨ ¬ (rest.map Prod.fst).Nodup := by
          by_cases h1 : k0 ∈ rest.map Prod.fst
          · exact Or.inl h1
          · refine Or.inr fun h2 => h ?_
            simp [List.nodup_cons, h1, h2]
        cases key with
        | typeName =>
            have hk0 : k0 = "type_name" := deField_ok_eq _ _ hf
            subst hk0
            by_cases htn : tn.isSome
            · simp [htn]
            · simp only [htn, if_false]
              rcases hv : deString v0 with e2 | t0
              · simp
              · simp only [except_bind_ok]
                rcases hsplit with hin | hnd
                · exact deErrorMap_dup rest (some t0) m s (Or.inl ⟨hin, rfl⟩)
                · exact ih (some t0) m s hnd
        | msg =>
            have hk0 : k0 = "msg" := deField_ok_eq _ _ hf
            subst hk0
            by_cases hm : m.isSome
            · simp [hm]
            · simp only [hm, if_false]
              rcases hv : deString v0 with e2 | m0
              · simp
              · simp only [except_bind_ok]
                rcases hsplit with hin | hnd
                · exact deErrorMap_dup rest tn (some m0) s (Or.inr (Or.inl ⟨hin, rfl⟩))
                · exact ih tn (some m0) s hnd
        | source =>
            have hk0 : k0 = "source" := deField_ok_eq _ _ hf
            subst hk0
            by_cases hs : s.isSome
            · simp [hs]
            · simp only [hs, if_false]
              rcases hv : deOptSourceError v0 with e2 | s0
              · simp
              · simp only [except_bind_ok]
                rcases hsplit with hin | hnd
                · exact deErrorMap_dup rest tn m (some s0) (Or.inr (Or.inr ⟨hin, rfl⟩))
                · exact ih tn m (some s0) hnd

/-- A record without a `msg` field never deserializes successfully at
top level when the accumulator is still empty. -/
theorem deErrorMap_missing_msg (fields : List (String × Value)) (tn : Option String)
    (s : Option (Option SourceError)) (h : "msg" ∉ fields.map Prod.fst) :
    (deErrorMap fields tn none s).isOk = false := by
  induction fields generalizing tn s with
  | nil => simp
  | cons p rest ih =>
      obtain ⟨k0, v0⟩ := p
      rw [deErrorMap_cons]
      rcases hf : deField (.str k0) with e | key
      · simp
      · simp only [except_bind_ok]
        have hrest : "msg" ∉ rest.map Prod.fst := by
          intro h2
          exact h (by simp [h2])
        cases key with
        | typeName =>
            by_cases htn : tn.isSome
            · simp [htn]
            · simp only [htn, if_false]
              rcases hv : deString v0 with e2 | t0
              · simp
              · simp only [except_bind_ok]
                exact ih (some t0) s hrest
        | msg =>
            have hk0 : k0 = "msg" := deField_ok_eq _ _ hf
            subst hk0
            exact absurd (by simp) h
        | source =>
            by_cases hs : s.isSome
            · simp [hs]
            · simp only [hs, if_false]
              rcases hv : deOptSourceError v0 with e2 | s0
              · simp
              · simp only [except_bind_ok]
                exact ih tn (some s0) hrest

/-- A record without a `source` field never deserializes successfully at
top level when the accumulator is still empty. -/
theorem deErrorMap_missing_source (fields : List (String × Value)) (tn m : Option String)
    (h : "source" ∉ fields.map Prod.fst) :
    (deErrorMap fields tn m none).isOk = false := by
  induction fields generalizing tn m with
  | nil => cases m <;> simp
  | cons p rest ih =>
      obtain ⟨k0, v0⟩ := p
      rw [deErrorMap_cons]
      rcases hf : deField (.str k0) with e | key
      · simp
      · simp only [except_bind_ok]
        have hrest : "source" ∉ rest.map Prod.fst := by
          intro h2
          exact h (by simp [h2])
        cases key with
        | typeName =>
            by_cases htn : tn.isSome
            · simp [htn]
            · simp only [htn, if_false]
              rcases hv : deString v0 with e2 | t0
              · simp
              · simp only [except_bind_ok]
                exact ih (some t0) m hrest
        | msg =>
            by_cases hm : m.isSome
            · simp [hm]
            · simp only [hm, if_false]
              rcases hv : deString v0 with e2 | m0
              · simp
              · simp only [except_bind_ok]
                exact ih tn (some m0) hrest
        | source =>
            have hk0 : k0 = "source" := deField_ok_eq _ _ hf
            subst hk0
            exact absurd (by simp) h

/-!
## The keyed validation rules, nested source nodes
-/

/-- A nested node containing a field outside `msg`, `source` never
deserializes successfully; in particular `type_name` is rejected below
top level. -/
theorem deSourceErrorMap_unknown (fields : List (String × Value)) (m : Option String)
    (s : Option (Option SourceError)) (k : String) (v : Value)
    (hmem : (k, v) ∈ fields) (hk : k ∉ FIELDS.drop 1) :
    (deSourceErrorMap fields m s).isOk = false := by
  induction fields generalizing m s with
  | nil => cases hmem
  | cons p rest ih =>
      obtain ⟨k0, v0⟩ := p
      rw [deSourceErrorMap_cons]
      rcases hf : deField (.str k0) with e | key
      · simp
      · simp only [except_bind_ok]
        cases key with
        | typeName => simp
        | msg =>
            have hk0 : k0 = "msg" := deField_ok_eq _ _ hf
            subst hk0
            have hmem2 : (k, v) ∈ rest := by
              rcases List.mem_cons.mp hmem with heq | h2
              · injection heq with h1 _
                subst h1
                exact absurd (by simp [FIELDS]) hk
              · exact h2
            by_cases hm : m.isSome
            · simp [hm]
            · simp only [hm, if_false]
              rcases hv : deString v0 with e2 | m0
              · simp
              · simp only [except_bind_ok]
                exact ih (some m0) s hmem2
        | source =>
            have hk0 : k0 = "source" := deField_ok_eq _ _ hf
            subst hk0
            have hmem2 : (k, v) ∈ rest := by
              rcases List.mem_cons.mp hmem with heq | h2
              · injection heq with h1 _
                subst h1
                exact absurd (by simp [FIELDS]) hk
              · exact h2
            by_cases hs : s.isSome
            · simp [hs]
            · simp only [hs, if_false]
              rcases hv : deOptSourceError v0 with e2 | s0
              · simp
              · simp only [except_bind_ok]
                exact ih m (some s0) hmem2

/-- A nested node holding a field whose accumulator is already filled
never deserializes successfully. -/
theorem deSourceErrorMap_dup (fields : List (String × Value)) (m : Option String)
    (s : Option (Option SourceError))
    (h : ("msg" ∈ fields.map Prod.fst ∧ m.isSome = true) ∨
         ("source" ∈ fields.map Prod.fst ∧ s.isSome = true)) :
    (deSourceErrorMap fields m s).isOk = false := by
  induction fields generalizing m s with
  | nil => simp at h
  | cons p rest ih =>
      obtain ⟨k0, v0⟩ := p
      rw [deSourceErrorMap_cons]
      rcases hf : deField (.str k0) with e | key
      · simp
      · simp only [except_bind_ok]
        cases key with
        | typeName => simp
        | msg =>
            have hk0 : k0 = "msg" := deField_ok_eq _ _ hf
            subst hk0
            by_cases hm : m.isSome
            · simp [hm]
            · simp only [hm, if_false]
              rcases hv : deString v0 with e2 | m0
              · simp
              · simp only [except_bind_ok]
                apply ih (some m0) s
                rcases h with ⟨_, h2⟩ | ⟨h1, h2⟩
                · exact absurd h2 hm
                · exact Or.inr ⟨mem_map_fst_cons h1 (by decide), h2⟩
        | source =>
            have hk0 : k0 = "source" := deField_ok_eq _ _ hf
            subst hk0
            by_cases hs : s.isSome
            · simp [hs]
            · simp only [hs, if_false]
              rcases hv : deOptSourceError v0 with e2 | s0
              · simp
              · simp only [except_bind_ok]
                apply ih m (some s0)
                rcases h with ⟨h1, h2⟩ | ⟨_, h2⟩
                · exact Or.inl ⟨mem_map_fst_cons h1 (by decide), h2⟩
                · exact absurd h2 hs

/-- A nested node with a repeated field name never deserializes
successfully. -/
theorem deSourceErrorMap_nodup (fields : List (String × Value)) (m : Option String)
    (s : Option (Option SourceError)) (h : ¬ (fields.map Prod.fst).Nodup) :
    (deSourceErrorMap fields m s).isOk = false := by
  induction fields generalizing m s with
  | nil => simp at h
  | cons p rest ih =>
      obtain ⟨k0, v0⟩ := p
      rw [deSourceErrorMap_cons]
      rcases hf : deField (.str k0) with e | key
      · simp
      · simp only [except_bind_ok]
        have hsplit : k0 ∈ rest.map Prod.fst ∨ ¬ (rest.map Prod.fst).Nodup := by
          by_cases h1 : k0 ∈ rest.map Prod.fst
          · exact Or.inl h1
          · refine Or.inr fun h2 => h ?_
            simp [List.nodup_cons, h1, h2]
        cases key with
        | typeName => simp
        | msg =>
            have hk0 : k0 = "msg" := deField_ok_eq _ _ hf
            subst hk0
            by_cases hm : m.isSome
            · simp [hm]
            · simp only [hm, if_false]
              rcases hv : deString v0 with e2 | m0
              · simp
              · simp only [except_bind_ok]
                rcases hsplit with hin | hnd
                · exact deSourceErrorMap_dup rest (some m0) s (Or.inl ⟨hin, rfl⟩)
                · exact ih (some m0) s hnd
        | source =>
            have hk0 : k0 = "source" := deField_ok_eq _ _ hf
            subst hk0
            by_cases hs : s.isSome
            · simp [hs]
            · simp only [hs, if_false]
              rcases hv : deOptSourceError v0 with e2 | s0
              · simp
              · simp only [except_bind_ok]
                rcases hsplit with hin | hnd
                · exact deSourceErrorMap_dup rest m (some s0) (Or.inr ⟨hin, rfl⟩)
                · exact ih m (some s0) hnd

/-- A nested node without a `msg` field never deserializes successfully
when the accumulator is still empty. -/
theorem deSourceErrorMap_missing_msg (fields : List (String × Value))
    (s : Option (Option SourceError)) (h : "msg" ∉ fields.map Prod.fst) :
    (deSourceErrorMap fields none s).isOk = false := by
  induction fields generalizing s with
  | nil => simp
  | cons p rest ih =>
      obtain ⟨k0, v0⟩ := p
      rw [deSourceErrorMap_cons]
      rcases hf : deField (.str k0) with e | key
      · simp
      · simp only [except_bind_ok]
        have hrest : "msg" ∉ rest.map Prod.fst := by
          intro h2
          exact h (by simp [h2])
        cases key with
        | typeName => simp
        | msg =>
            have hk0 : k0 = "msg" := deField_ok_eq _ _ hf
            subst hk0
            exact absurd (by simp) h
        | source =>
            by_cases hs : s.isSome
            · simp [hs]
            · simp only [hs, if_false]
              rcases hv : deOptSourceError v0 with e2 | s0
              · simp
              · simp only [except_bind_ok]
                exact ih (some s0) hrest

/-- A nested node without a `source` field never deserializes
successfully when the accumulator is still empty. -/
theorem deSourceErrorMap_missing_source (fields : List (String × Value))
    (m : Option String) (h : "source" ∉ fields.map Prod.fst) :
    (deSourceErrorMap fields m none).isOk = false := by
  induction fields generalizing m with
  | nil => cases m <;> simp
  | cons p rest ih =>
      obtain ⟨k0, v0⟩ := p
      rw [deSourceErrorMap_cons]
      rcases hf : deField (.str k0) with e | key
      · simp
      · simp only [except_bind_ok]
        have hrest : "source" ∉ rest.map Prod.fst := by
          intro h2
          exact h (by simp [h2])
        cases key with
        | typeName => simp
        | msg =>
            by_cases hm : m.isSome
            · simp [hm]
            · simp only [hm, if_false]
              rcases hv : deString v0 with e2 | m0
              · simp
              · simp only [except_bind_ok]
                exact ih (some m0) hrest
        | source =>
            have hk0 : k0 = "source" := deField_ok_eq _ _ hf
            subst hk0
            exact absurd (by simp) h

/-!
## Deserializing the canonical encodings of a logical record
-/

theorem deOpt_encodeSourceKeyed (ms : List String) :
    deOptSourceError (.opt (encodeSourceKeyed ms)) = .ok (decodeSources ms) := by
  induction ms with
  | nil => simp [encodeSourceKeyed, decodeSources]
  | cons m ms ih => simp [encodeSourceKeyed, decodeSources, deField, deString, ih]

theorem deOpt_encodeSourcePositional (ms : List String) :
    deOptSourceError (.opt (encodeSourcePositional ms)) = .ok (decodeSources ms) := by
  induction ms with
  | nil => simp [encodeSourcePositional, decodeSources]
  | cons m ms ih => simp [encodeSourcePositional, decodeSources, deString, ih]

/-!
## Traversal lemmas
-/

theorem downcast_concrete_not_found (t : Nat) (chain : List DynNode)
    (h : ∀ x ∈ chain, x.tyId ≠ t) : downcast_refchain_concrete t chain = none := by
  induction chain with
  | nil => rfl
  | cons e rest ih =>
      have he : e.tyId ≠ t := h e (List.mem_cons_self e rest)
      simp only [downcast_refchain_concrete, if_neg he]
      exact ih fun x hx => h x (List.mem_cons_of_mem e hx)

theorem downcast_concrete_found (t : Nat) (pre post : List DynNode) (n : DynNode)
    (hn : n.tyId = t) (hpre : ∀ x ∈ pre, x.tyId ≠ t) :
    downcast_refchain_concrete t (pre ++ n :: post) = some n := by
  induction pre with
  | nil => simp [downcast_refchain_concrete, hn]
  | cons e rest ih =>
      have he : e.tyId ≠ t := hpre e (List.mem_cons_self e rest)
      simp only [List.cons_append, downcast_refchain_concrete, if_neg he]
      exact ih fun x hx => hpre x (List.mem_cons_of_mem e hx)

theorem downcast_concrete_found_exists (t : Nat) (chain : List DynNode)
    (h : ∃ x ∈ chain, x.tyId = t) :
    ∃ y, downcast_refchain_concrete t chain = some y ∧ y.tyId = t := by
  induction chain with
  | nil => simp at h
  | cons e rest ih =>
      by_cases he : e.tyId = t
      · exact ⟨e, by simp [downcast_refchain_concrete, he], he⟩
      · obtain ⟨x, hx, hxt⟩ := h
        rcases List.mem_cons.mp hx with rfl | hx2
        · exact absurd hxt he
        · obtain ⟨y, hy, hyt⟩ := ih ⟨x, hx2, hxt⟩
          exact ⟨y, by simp [downcast_refchain_concrete, he, hy], hyt⟩

/-!
## The claims
-/

/-- Claim C1: the round trip serialize-then-deserialize does NOT hold on
this code. The serializer emits the field names `type` and `backtrace`,
but the deserializer recognizes only `type_name`, `msg`, `source` and
rejects unknown fields, so the keyed round trip of the two-node chain
of tests/serialize.rs fails with an unknown-field error from either
entry shape; the positional round trip fails as well, because the
serialized field layout (`type`/`msg`/`backtrace`/`source`) does not
line up with the `type_name`/`msg`/`source` slots the visitor reads. -/
theorem serialize_roundtrip_fails :
    (deError (serializeConcrete .keyed "serialize::SecondError"
        ⟨"second error", none⟩ [⟨"root cause", none⟩]) =
      .error (.unknownField "type" FIELDS)) ∧
    (deError (serializeErased .keyed ⟨"second error", none⟩ [⟨"root cause", none⟩]) =
      .error (.unknownField "backtrace" FIELDS)) ∧
    (deError (serializeConcrete .positional "serialize::SecondError"
        ⟨"second error", none⟩ [⟨"root cause", none⟩]) =
      .error (.invalidType "option")) ∧
    (deError (serializeErased .positional ⟨"second error", none⟩ [⟨"root cause", none⟩]) =
      .error (.invalidType "option")) := by
  refine ⟨?_, ?_, ?_, ?_⟩ <;>
    simp [serializeConcrete, serializeErased, serializeConcreteFields, serializeErasedFields,
      renderStruct, deField, deString, deOptString, FIELDS]

/-- Claim C2: the positional and the keyed encoding of one and the same
logical record deserialize to equal results (both succeed with the
record the logical value denotes). -/
theorem keyed_positional_agree (r : LogicalRecord) :
    deError r.encodeKeyed = .ok r.toError ∧
    deError r.encodePositional = .ok r.toError ∧
    deError r.encodeKeyed = deError r.encodePositional := by
  obtain ⟨tn, m, srcs⟩ := r
  have hk : deError (LogicalRecord.encodeKeyed ⟨tn, m, srcs⟩) =
      .ok (LogicalRecord.toError ⟨tn, m, srcs⟩) := by
    cases tn <;>
      simp [LogicalRecord.encodeKeyed, LogicalRecord.toError, deField, deString,
        deOpt_encodeSourceKeyed]
  have hp : deError (LogicalRecord.encodePositional ⟨tn, m, srcs⟩) =
      .ok (LogicalRecord.toError ⟨tn, m, srcs⟩) := by
    cases tn <;>
      simp [LogicalRecord.encodePositional, LogicalRecord.toError, deString, deOptString,
        deOpt_encodeSourcePositional]
  exact ⟨hk, hp, hk.trans hp.symm⟩

/-- Claim C3: `downcast_refchain` returns the matching node nearest the
head when one exists (the type check starts at the receiver itself and
walks through successive sources) and `none` when no node matches. -/
theorem downcast_refchain_first (t : Nat) (chain pre post : List DynNode) (n : DynNode) :
    ((∀ x ∈ chain, x.tyId ≠ t) → downcast_refchain_concrete t chain = none) ∧
    ((∃ x ∈ chain, x.tyId = t) →
      ∃ y, downcast_refchain_concrete t chain = some y ∧ y.tyId = t) ∧
    (chain = pre ++ n :: post → n.tyId = t → (∀ x ∈ pre, x.tyId ≠ t) →
      downcast_refchain_concrete t chain = some n) :=
  ⟨downcast_concrete_not_found t chain,
   downcast_concrete_found_exists t chain,
   fun hchain hn hpre => hchain ▸ downcast_concrete_found t pre post n hn hpre⟩

/-- Witness for C3 at a concrete chain: the target type occurs at
positions 1 and 2, the node at position 1 is returned. -/
theorem downcast_refchain_first_witness :
    downcast_refchain_concrete 1 [⟨2, 10⟩, ⟨1, 11⟩, ⟨1, 12⟩] = some ⟨1, 11⟩ :=
  (downcast_refchain_first 1 [⟨2, 10⟩, ⟨1, 11⟩, ⟨1, 12⟩] [⟨2, 10⟩] [⟨1, 12⟩] ⟨1, 11⟩).2.2
    rfl rfl (by decide)

/-- Claim C4: `wrap_err` passes successes through unchanged and turns a
failure `E` into a failure built by the `From<(E, String)>` capability
from the original error and the eagerly rendered context; with the
sample target of examples/wrap_err.rs the new error keeps `E` as its
source and the rendered context as its message. -/
theorem wrap_err_spec {T E E2 D : Type} (efrom : E × String → E2) (render : D → String)
    (v : T) (e : E) (msg : D) :
    (wrap_err efrom render (.ok v) msg = (.ok v : Except E2 T)) ∧
    (wrap_err efrom render (.error e : Except E T) msg = .error (efrom (e, render msg))) ∧
    (wrap_err PublicEnumError.ofPair render (.error e : Except E T) msg =
      .error ⟨e, render msg⟩) :=
  ⟨rfl, rfl, rfl⟩

/-- Claim C5: `wrap_err_with` runs its zero-argument callback exactly
once on a failure and never on a success, and otherwise produces the
same value `wrap_err` produces from the rendered message. -/
theorem wrap_err_with_spec {T E E2 D : Type} (efrom : E × String → E2) (render : D → String)
    (self : Except E T) (g : Nat → D) (n : Nat) :
    ((wrap_err_with efrom render self (fun c => (g c, c + 1)) n).2 =
      n + (match self with | .ok _ => 0 | .error _ => 1)) ∧
    ((wrap_err_with efrom render self (fun c => (g c, c + 1)) n).1 =
      wrap_err efrom render self (g n)) ∧
    (∀ (σ : Type) (f : σ → D × σ) (s : σ) (v : T),
      wrap_err_with efrom render (Except.ok v : Except E T) f s = (.ok v, s)) := by
  refine ⟨?_, ?_, fun σ f s v => rfl⟩ <;>
    cases self <;> simp [wrap_err_with, wrap_err, Except.mapError]

/-- Claim C6: keyed deserialization rejects every record with an
unknown field name, every record with a duplicate field, and every node
missing `msg` or missing `source`, while `type_name` stays optional at
top level; each rejection is an explicit error value with a distinct
name (the functions are total, so no rejection can abort). -/
theorem keyed_rejects_malformed (fields : List (String × Value)) (k : String) (v : Value)
    (m : String) :
    ((∃ p ∈ fields, p.1 ∉ FIELDS) → (deError (.record fields)).isOk = false) ∧
    (¬ (fields.map Prod.fst).Nodup → (deError (.record fields)).isOk = false) ∧
    ("msg" ∉ fields.map Prod.fst → (deError (.record fields)).isOk = false) ∧
    ("source" ∉ fields.map Prod.fst → (deError (.record fields)).isOk = false) ∧
    ((∃ p ∈ fields, p.1 ∉ FIELDS.drop 1) → (deSourceError (.record fields)).isOk = false) ∧
    (¬ (fields.map Prod.fst).Nodup → (deSourceError (.record fields)).isOk = false) ∧
    ("msg" ∉ fields.map Prod.fst → (deSourceError (.record fields)).isOk = false) ∧
    ("source" ∉ fields.map Prod.fst → (deSourceError (.record fields)).isOk = false) ∧
    (k ∉ FIELDS → deError (.record ((k, v) :: fields)) = .error (.unknownField k FIELDS)) ∧
    (deError (.record (("msg", .str m) :: ("msg", v) :: fields)) =
      .error (.duplicateField "msg")) ∧
    (deError (.record []) = .error (.missingField "msg")) ∧
    (deError (.record [("msg", .str m)]) = .error (.missingField "source")) ∧
    (deError (.record [("msg", .str m), ("source", .opt none)]) = .ok ⟨none, m, none⟩) := by
  refine ⟨?_, ?_, ?_, ?_, ?_, ?_, ?_, ?_, ?_, ?_, ?_, ?_, ?_⟩
  · rintro ⟨⟨k1, v1⟩, hmem, hk1⟩
    simpa using deErrorMap_unknown fields none none none k1 v1 hmem hk1
  · intro h
    simpa using deErrorMap_nodup fields none none none h
  · intro h
    simpa using deErrorMap_missing_msg fields none none h
  · intro h
    simpa using deErrorMap_missing_source fields none none h
  · rintro ⟨⟨k1, v1⟩, hmem, hk1⟩
    simpa using deSourceErrorMap_unknown fields none none k1 v1 hmem hk1
  · intro h
    simpa using deSourceErrorMap_nodup fields none none h
  · intro h
    simpa using deSourceErrorMap_missing_msg fields none h
  · intro h
    simpa using deSourceErrorMap_missing_source fields none h
  · intro hk
    simp [deField_unknown k hk]
  · simp [deField, deString]
  · simp
  · simp [deField, deString]
  · simp [deField, deString]

/-- Witness for C6: concrete malformed records are rejected (one per
validation rule, at both node levels) and the well-formed record
without a `type_name` is accepted. -/
theorem keyed_rejects_malformed_witness :
    ((deError (.record [("bogus", .opt none)])).isOk = false) ∧
    ((deError (.record [("msg", .str "a"), ("msg", .str "b")])).isOk = false) ∧
    ((deError (.record [("source", .opt none)])).isOk = false) ∧
    ((deError (.record [("msg", .str "a")])).isOk = false) ∧
    ((deSourceError (.record [("type_name", .str "T")])).isOk = false) ∧
    ((deSourceError (.record [("source", .opt none), ("source", .opt none)])).isOk = false) ∧
    ((deSourceError (.record [("source", .opt none)])).isOk = false) ∧
    ((deSourceError (.record [("msg", .str "a")])).isOk = false) :=
  ⟨(keyed_rejects_malformed [("bogus", .opt none)] "k" (.opt none) "m").1
      ⟨("bogus", .opt none), by simp, by decide⟩,
   (keyed_rejects_malformed [("msg", .str "a"), ("msg", .str "b")] "k" (.opt none) "m").2.1
      (by decide),
   (keyed_rejects_malformed [("source", .opt none)] "k" (.opt none) "m").2.2.1
      (by decide),
   (keyed_rejects_malformed [("msg", .str "a")] "k" (.opt none) "m").2.2.2.1
      (by decide),
   (keyed_rejects_malformed [("type_name", .str "T")] "k" (.opt none) "m").2.2.2.2.1
      ⟨("type_name", .str "T"), by simp, by decide⟩,
   (keyed_rejects_malformed [("source", .opt none), ("source", .opt none)]
        "k" (.opt none) "m").2.2.2.2.2.1 (by decide),
   (keyed_rejects_malformed [("source", .opt none)] "k" (.opt none) "m").2.2.2.2.2.2.1
      (by decide),
   (keyed_rejects_malformed [("msg", .str "a")] "k" (.opt none) "m").2.2.2.2.2.2.2.1
      (by decide)⟩

/-- Claim C7: only the top-level record carries `type_name`: a nested
node accepts only `msg` and `source` (a `type_name` key inside it is
rejected as unknown against the narrowed field list), and the
type-erased serialization form emits no type name at all. -/
theorem type_name_only_top_level (v : Value) (rest fields : List (String × Value))
    (form : Form) (e : ErrNode) (tail : List ErrNode) :
    (deSourceError (.record (("type_name", v) :: rest)) =
      .error (.unknownField "type_name" (FIELDS.drop 1))) ∧
    ((∃ p ∈ fields, p.1 ∉ FIELDS.drop 1) → (deSourceError (.record fields)).isOk = false) ∧
    ((serializeErasedFields form e tail).map Prod.fst = ["msg", "backtrace", "source"]) := by
  refine ⟨?_, ?_, ?_⟩
  · simp [deField]
  · rintro ⟨⟨k1, v1⟩, hmem, hk1⟩
    simpa using deSourceErrorMap_unknown fields none none k1 v1 hmem hk1
  · rw [serializeErasedFields.eq_def]
    simp

/-- Witness for C7: a nested node consisting of a lone `type_name`
field is rejected. -/
theorem type_name_only_top_level_witness :
    (deSourceError (.record [("type_name", .str "T")])).isOk = false :=
  (type_name_only_top_level (.str "T") [] [("type_name", .str "T")] .keyed
      ⟨"m", none⟩ []).2.1 ⟨("type_name", .str "T"), by simp, by decide⟩

/-- Counterexample to C8 as stated: in the positional form, a nested
node with zero elements is missing its element at position 0 (the
`msg` slot), yet the invalid-length error it raises carries the index
1, so the error does not report the position within the offending
node. -/
theorem invalid_length_counterexample :
    deSourceError (.seq []) = .error (.invalidLength 1 expectingError) ∧
    deSourceError (.seq []) ≠ .error (.invalidLength 0 expectingError) := by
  constructor
  · simp
  · simp

/-- Claim C8 as amended: the invalid-length error of the positional
form reports, at top level, the 0-based position of the first missing
element (0, 1 or 2); for nested nodes it reports that position shifted
up by one (1 for a missing `msg`, 2 for a missing `source`), the index
of the field in the full `type_name`/`msg`/`source` list; within each
node kind the reported index still identifies the offending field. -/
theorem invalid_length_positions (tn : Option String) (m : String) :
    (deError (.seq []) = .error (.invalidLength 0 expectingError)) ∧
    (deError (.seq [.opt (tn.map .str)]) = .error (.invalidLength 1 expectingError)) ∧
    (deError (.seq [.opt (tn.map .str), .str m]) = .error (.invalidLength 2 expectingError)) ∧
    (deSourceError (.seq []) = .error (.invalidLength 1 expectingError)) ∧
    (deSourceError (.seq [.str m]) = .error (.invalidLength 2 expectingError)) := by
  cases tn <;> simp [deOptString, deString]

/-- Claim C9: the traversal terminates after at most one type check per
chain node, and the instrumented loop computes the same result as the
plain one. -/
theorem downcast_refchain_steps_le (t : Nat) (chain : List DynNode) :
    (downcast_refchain_steps t chain).2 ≤ chain.length ∧
    (downcast_refchain_steps t chain).1 = downcast_refchain_concrete t chain := by
  induction chain with
  | nil => simp [downcast_refchain_steps, downcast_refchain_concrete]
  | cons e rest ih =>
      rcases hsteps : downcast_refchain_steps t rest with ⟨r, c⟩
      rw [hsteps] at ih
      obtain ⟨ih1, ih2⟩ := ih
      have hstep : downcast_refchain_steps t (e :: rest) =
          if e.tyId = t then (some e, 1) else (r, c + 1) := by
        simp only [downcast_refchain_steps, hsteps]
      by_cases h : e.tyId = t
      · rw [hstep, if_pos h]
        simp [downcast_refchain_concrete, h]
      · rw [hstep, if_neg h]
        simp only [downcast_refchain_concrete, if_neg h, List.length_cons]
        exact ⟨by omega, ih2⟩

/-- Claim C10: the three textually repeated traversal loops (for a
concrete error, for `dyn Error`, and for `dyn Error + Send + Sync`)
compute the same result on every chain and target type. -/
theorem downcast_impls_agree (t : Nat) (chain : List DynNode) :
    downcast_refchain_dyn t chain = downcast_refchain_concrete t chain ∧
    downcast_refchain_dyn_send_sync t chain = downcast_refchain_concrete t chain := by
  induction chain with
  | nil => exact ⟨rfl, rfl⟩
  | cons e rest ih =>
      refine ⟨?_, ?_⟩ <;>
        simp [downcast_refchain_dyn, downcast_refchain_dyn_send_sync,
          downcast_refchain_concrete, ih.1, ih.2]

end Errtools
